import Mathlib

set_option linter.unusedVariables false

/-!
# DynBuffer: a shallow embedding of `src/dynbuffer.js`

The repository is a single ES class `DynBuffer`: a growable, cursor-based
binary buffer with endianness-aware typed accessors and an iconv-lite text
bridge.  We embed its state as a record over a byte list and each public
method as a function on that record.

Modelling conventions, stated once:

* The backing store (`#stream`, a Node `Buffer` over a resizable
  `ArrayBuffer` with `maxByteLength = 2 ** 30`) is modelled as a single
  `List Nat` of byte values.  `ArrayBuffer.prototype.resize` zero-fills on
  growth and throws `RangeError` past `maxByteLength`; `subarray(0, n)`
  truncates.  TypedArray view/aliasing minutiae are memory-layout details
  outside the embedding.
* JS exceptions become `Except` results.  An error also carries the state
  at the moment of the throw, because a throw aborts the method midway.
* Node's `Buffer` read/write primitives (`readUInt32BE`, `writeInt16LE`,
  `writeBigUint64BE`, ...) validate the value range (for integer writes)
  and the offset bounds, throwing `ERR_OUT_OF_RANGE` otherwise; this is the
  `valueOutOfRange` / `outOfBounds` error below.
* IEEE-754 values (`writeFloat`/`writeDouble`) are represented by their
  32/64-bit patterns as `Nat`: the accessors only transport the pattern
  bytes, so the numeric interpretation plays no role in any claim here.
* iconv-lite is an external collaborator (not part of this repository); it
  is modelled as an abstract `Codec` record offering exactly the interface
  the spec lists (`encodingExists`, `encode`, `decode`), plus one concrete
  UTF-8 instance for evaluating concrete scenarios.
-/

/-- Byte order, the `#endian` field: `'BE' | 'LE'`, default `'BE'`. -/
inductive Endian where
  | BE
  | LE
deriving DecidableEq, Repr

/-- The JS exceptions the class can surface:
`RangeError` from `ArrayBuffer.resize` past `maxByteLength`
(`capacityExceeded`), Node `ERR_OUT_OF_RANGE` for a read/write outside the
buffer (`outOfBounds`) or an integer value outside the type's range
(`valueOutOfRange`), and the `Invalid encoding` errors of
`writeMultiByte`/`readMultiByte` (`unsupportedEncoding`). -/
inductive DynErr where
  | capacityExceeded
  | outOfBounds
  | valueOutOfRange
  | unsupportedEncoding
deriving DecidableEq, Repr

/-- The state of a `DynBuffer` instance: `#stream` (the byte store),
`#position` (the cursor) and `#endian`. -/
structure DynBuffer where
  stream : List Nat
  position : Nat
  endian : Endian
deriving DecidableEq, Repr

namespace DynBuffer

/-- Models `new DynBuffer()`: empty store, position `0`, big-endian. -/
def new : DynBuffer := ⟨[], 0, .BE⟩

/-- Models `maxByteLength` of the backing `ArrayBuffer`: `2 ** 30`. -/
def MAX_CAPACITY : Nat := 2 ^ 30

/-- Models `get bytesAvailable`: `this.#stream.length - this.#position` (a JS
number, hence negative when the cursor sits past the end). -/
def bytesAvailable (s : DynBuffer) : Int :=
  (s.stream.length : Int) - (s.position : Int)

/-- Models `ArrayBuffer.prototype.resize(n)`: truncate or zero-extend the store to
`n` bytes. -/
def resize (l : List Nat) (n : Nat) : List Nat :=
  l.take n ++ List.replicate (n - l.length) 0

/-- Models `#ensureCapacity(bytes)`: if fewer than `bytes` bytes are available,
resize the store to `length + (bytes - bytesAvailable)`; the resize throws
`RangeError` when the new length exceeds `maxByteLength`.  Returns the
(possibly grown) store. -/
def ensureCapacity (s : DynBuffer) (bytes : Nat) : Except DynErr (List Nat) :=
  if bytesAvailable s < (bytes : Int) then
    let newLength : Int := (s.stream.length : Int) + ((bytes : Int) - bytesAvailable s)
    if (MAX_CAPACITY : Int) < newLength then
      .error .capacityExceeded
    else
      .ok (resize s.stream newLength.toNat)
  else
    .ok s.stream

/-- Little-endian byte decomposition of a value, `w` bytes (the value is
taken modulo `2 ^ (8 * w)`, as Node's primitives never see an out-of-range
value past their validation). -/
def bytesOfNat : Nat → Nat → List Nat
  | 0, _ => []
  | w + 1, v => (v % 256) :: bytesOfNat w (v / 256)

/-- Recompose a little-endian byte list into a value. -/
def natOfBytesLE : List Nat → Nat
  | [] => 0
  | b :: bs => b + 256 * natOfBytesLE bs

/-- The byte sequence a Node `write*BE`/`write*LE` primitive stores for a
`w`-byte value: little-endian order for `LE`, reversed for `BE`. -/
def orientBytes (e : Endian) (w v : Nat) : List Nat :=
  match e with
  | .LE => bytesOfNat w v
  | .BE => (bytesOfNat w v).reverse

/-- Overwrite the bytes `[pos, pos + bs.length)` of a store with `bs`. -/
def storeBytes (l : List Nat) (pos : Nat) (bs : List Nat) : List Nat :=
  l.take pos ++ bs ++ l.drop (pos + bs.length)

/-- The write path of `#executeCall(func, bytes, value)`: run
`#ensureCapacity(bytes)`, then let the Node primitive validate the value
(`inRange` is that primitive's range predicate) and store the value's
pattern at `#position` in the active byte order, then advance `#position`
by `bytes`.  A range failure happens after the capacity was already
grown. -/
def executeWrite (s : DynBuffer) (w : Nat) (inRange : Bool) (pattern : Nat) :
    Except (DynErr × DynBuffer) DynBuffer :=
  match ensureCapacity s w with
  | .error e => .error (e, s)
  | .ok grown =>
    if inRange then
      .ok { s with stream := storeBytes grown s.position (orientBytes s.endian w pattern),
                   position := s.position + w }
    else
      .error (.valueOutOfRange, { s with stream := grown })

/-- The read path of `#executeCall(func, bytes)`: the Node primitive
throws `ERR_OUT_OF_RANGE` unless `#position + bytes ≤ length`; otherwise it
decodes the `bytes`-byte pattern at `#position` in the active byte order,
and `#position` advances by `bytes`. -/
def executeRead (s : DynBuffer) (w : Nat) :
    Except (DynErr × DynBuffer) (Nat × DynBuffer) :=
  if s.position + w ≤ s.stream.length then
    let span := (s.stream.drop s.position).take w
    let le := match s.endian with
      | .LE => span
      | .BE => span.reverse
    .ok (natOfBytesLE le, { s with position := s.position + w })
  else
    .error (.outOfBounds, s)

/-- Two's-complement reading of a `w`-byte pattern, as Node's signed read
primitives do. -/
def toSigned (w pat : Nat) : Int :=
  if pat < 2 ^ (8 * w - 1) then (pat : Int) else (pat : Int) - 2 ^ (8 * w)

/-- Two's-complement pattern of a signed value (Node validates the range
first; `Int.emod` is the mathematical modulus, non-negative here). -/
def ofSigned (w : Nat) (v : Int) : Nat :=
  (v % ((2 : Int) ^ (8 * w))).toNat

/-- Signed-write wrapper: `inRange` is the Node `writeInt*`/`writeBigInt64`
check `-(2 ^ (8w - 1)) ≤ value ≤ 2 ^ (8w - 1) - 1`. -/
def executeWriteSigned (s : DynBuffer) (w : Nat) (v : Int) :
    Except (DynErr × DynBuffer) DynBuffer :=
  executeWrite s w
    (decide (-((2 : Int) ^ (8 * w - 1)) ≤ v ∧ v < (2 : Int) ^ (8 * w - 1)))
    (ofSigned w v)

/-- Unsigned-write wrapper: the Node `writeUInt*`/`writeBigUint64` check is
`0 ≤ value ≤ 2 ^ (8w) - 1`. -/
def executeWriteUnsigned (s : DynBuffer) (w : Nat) (v : Nat) :
    Except (DynErr × DynBuffer) DynBuffer :=
  executeWrite s w (decide (v < 2 ^ (8 * w))) v

/-- Signed-read wrapper. -/
def executeReadSigned (s : DynBuffer) (w : Nat) :
    Except (DynErr × DynBuffer) (Int × DynBuffer) :=
  (executeRead s w).map (fun p => (toSigned w p.1, p.2))

/-- Models `writeByte(value)` = `#executeCall('writeInt8', 1, value)`. -/
def writeByte (s : DynBuffer) (v : Int) : Except (DynErr × DynBuffer) DynBuffer :=
  executeWriteSigned s 1 v

/-- Models `readByte()` = `#executeCall('readInt8', 1)`. -/
def readByte (s : DynBuffer) : Except (DynErr × DynBuffer) (Int × DynBuffer) :=
  executeReadSigned s 1

/-- Models `writeUnsignedByte(value)` = `#executeCall('writeUInt8', 1, value)`. -/
def writeUnsignedByte (s : DynBuffer) (v : Nat) : Except (DynErr × DynBuffer) DynBuffer :=
  executeWriteUnsigned s 1 v

/-- Models `readUnsignedByte()` = `#executeCall('readUInt8', 1)`. -/
def readUnsignedByte (s : DynBuffer) : Except (DynErr × DynBuffer) (Nat × DynBuffer) :=
  executeRead s 1

/-- Models `writeBytes(bytes, position = 0, length = 0)`: the body is an empty
`/** Todo */` stub — it does nothing and returns `undefined`. -/
def writeBytes (s : DynBuffer) (bytes : List Nat) (position : Nat := 0)
    (length : Nat := 0) : DynBuffer :=
  s

/-- Models `readBytes(bytes, position = 0, length = 0)`: likewise an empty stub. -/
def readBytes (s : DynBuffer) (bytes : List Nat) (position : Nat := 0)
    (length : Nat := 0) : DynBuffer :=
  s

/-- Models `writeBoolean(value)`: `writeByte(value ? 1 : 0)`. -/
def writeBoolean (s : DynBuffer) (v : Bool) : Except (DynErr × DynBuffer) DynBuffer :=
  writeByte s (if v then 1 else 0)

/-- Models `readBoolean()`: `readByte() !== 0`. -/
def readBoolean (s : DynBuffer) : Except (DynErr × DynBuffer) (Bool × DynBuffer) :=
  (readByte s).map (fun p => (p.1 ≠ 0, p.2))

/-- Models `writeShort(value)` = `#executeCall('writeInt16', 2, value)`. -/
def writeShort (s : DynBuffer) (v : Int) : Except (DynErr × DynBuffer) DynBuffer :=
  executeWriteSigned s 2 v

/-- Models `readShort()` = `#executeCall('readInt16', 2)`. -/
def readShort (s : DynBuffer) : Except (DynErr × DynBuffer) (Int × DynBuffer) :=
  executeReadSigned s 2

/-- Models `writeUnsignedShort(value)` = `#executeCall('writeUInt16', 2, value)`. -/
def writeUnsignedShort (s : DynBuffer) (v : Nat) : Except (DynErr × DynBuffer) DynBuffer :=
  executeWriteUnsigned s 2 v

/-- Models `readUnsignedShort()` = `#executeCall('readUInt16', 2)`. -/
def readUnsignedShort (s : DynBuffer) : Except (DynErr × DynBuffer) (Nat × DynBuffer) :=
  executeRead s 2

/-- Models `writeInt(value)` = `#executeCall('writeInt32', 4, value)`. -/
def writeInt (s : DynBuffer) (v : Int) : Except (DynErr × DynBuffer) DynBuffer :=
  executeWriteSigned s 4 v

/-- Models `readInt()` = `#executeCall('readInt32', 4)`. -/
def readInt (s : DynBuffer) : Except (DynErr × DynBuffer) (Int × DynBuffer) :=
  executeReadSigned s 4

/-- Models `writeUnsignedInt(value)` = `#executeCall('writeUInt32', 4, value)`. -/
def writeUnsignedInt (s : DynBuffer) (v : Nat) : Except (DynErr × DynBuffer) DynBuffer :=
  executeWriteUnsigned s 4 v

/-- Models `readUnsignedInt()` = `#executeCall('readUInt32', 4)`. -/
def readUnsignedInt (s : DynBuffer) : Except (DynErr × DynBuffer) (Nat × DynBuffer) :=
  executeRead s 4

/-- Models `writeFloat(value)` = `#executeCall('writeFloat', 4, value)`; the value
is represented by its IEEE-754 single-precision bit pattern, and the Node
float primitive performs no range validation. -/
def writeFloat (s : DynBuffer) (pattern : Nat) : Except (DynErr × DynBuffer) DynBuffer :=
  executeWrite s 4 true pattern

/-- Models `readFloat()` = `#executeCall('readFloat', 4)`, returning the bit
pattern read. -/
def readFloat (s : DynBuffer) : Except (DynErr × DynBuffer) (Nat × DynBuffer) :=
  executeRead s 4

/-- Models `writeDouble(value)` = `#executeCall('writeDouble', 8, value)`, on the
64-bit pattern. -/
def writeDouble (s : DynBuffer) (pattern : Nat) : Except (DynErr × DynBuffer) DynBuffer :=
  executeWrite s 8 true pattern

/-- Models `readDouble()` = `#executeCall('readDouble', 8)`. -/
def readDouble (s : DynBuffer) : Except (DynErr × DynBuffer) (Nat × DynBuffer) :=
  executeRead s 8

/-- Models `writeLong(value)` = `#executeCall('writeBigInt64', 8, value)`. -/
def writeLong (s : DynBuffer) (v : Int) : Except (DynErr × DynBuffer) DynBuffer :=
  executeWriteSigned s 8 v

/-- Models `readLong()` = `#executeCall('readBigInt64', 8)`. -/
def readLong (s : DynBuffer) : Except (DynErr × DynBuffer) (Int × DynBuffer) :=
  executeReadSigned s 8

/-- Models `writeUnsignedLong(value)` = `#executeCall('writeBigUint64', 8, value)`. -/
def writeUnsignedLong (s : DynBuffer) (v : Nat) : Except (DynErr × DynBuffer) DynBuffer :=
  executeWriteUnsigned s 8 v

/-- Models `readUnsignedLong()` = `#executeCall('readBigUint64', 8)`. -/
def readUnsignedLong (s : DynBuffer) : Except (DynErr × DynBuffer) (Nat × DynBuffer) :=
  executeRead s 8

/-- Models `set length(value)`: if `value > length` the branch is an empty
`// Todo`; otherwise `#stream = #stream.subarray(0, value)` and
`#position = #stream.length` (the new, truncated length). -/
def setLength (s : DynBuffer) (value : Nat) : DynBuffer :=
  if s.stream.length < value then
    s
  else
    { s with stream := s.stream.take value, position := (s.stream.take value).length }

/-- Models `set position(value)`: no validation of any kind. -/
def setPosition (s : DynBuffer) (value : Nat) : DynBuffer :=
  { s with position := value }

/-- Models `set endian(value)`. -/
def setEndian (s : DynBuffer) (value : Endian) : DynBuffer :=
  { s with endian := value }

/-- Models `clear()`: `#position = 0` then `this.length = 0`. -/
def clear (s : DynBuffer) : DynBuffer :=
  setLength { s with position := 0 } 0

end DynBuffer

/-- The external text-codec service (iconv-lite), per the spec's
collaborator interface: `encodingExists(name)`, `encode(string, name,
{addBOM: false})`, `decode(bytes, name)`.  iconv-lite is a dependency, not
code of this repository, so it stays abstract. -/
structure Codec where
  encodingExists : String → Bool
  encode : String → String → List Nat
  decode : List Nat → String → String

namespace DynBuffer

/-- Models `writeMultiByte(value, charSet = 'utf8', source = false)`: throw unless
the character set exists; encode; if `source`, write the encoded byte count
as an unsigned short; then `writeBytes(encoded, 0, encoded.length)` (the
stub). -/
def writeMultiByte (c : Codec) (s : DynBuffer) (value : String)
    (charSet : String := "utf8") (source : Bool := false) :
    Except (DynErr × DynBuffer) DynBuffer :=
  if c.encodingExists charSet then
    let encoded := c.encode value charSet
    if source then
      match writeUnsignedShort s encoded.length with
      | .error e => .error e
      | .ok s1 => .ok (writeBytes s1 encoded 0 encoded.length)
    else
      .ok (writeBytes s encoded 0 encoded.length)
  else
    .error (.unsupportedEncoding, s)

/-- Models `readMultiByte(length, charSet = 'utf8')`: throw unless the character
set exists; decode `#stream.subarray(#position, #position + length)`
(JS `subarray` clamps both ends to the store, so a short store yields a
short slice, not an error); advance `#position` by `length`. -/
def readMultiByte (c : Codec) (s : DynBuffer) (length : Nat)
    (charSet : String := "utf8") :
    Except (DynErr × DynBuffer) (String × DynBuffer) :=
  if c.encodingExists charSet then
    let buffer := (s.stream.drop s.position).take length
    .ok (c.decode buffer charSet, { s with position := s.position + length })
  else
    .error (.unsupportedEncoding, s)

/-- Models `writeUTF(value)`: `writeMultiByte(value, 'utf8', true)`. -/
def writeUTF (c : Codec) (s : DynBuffer) (value : String) :
    Except (DynErr × DynBuffer) DynBuffer :=
  writeMultiByte c s value "utf8" true

/-- Models `readUTF()`: `readMultiByte(this.readUnsignedShort())` with the default
`'utf8'` character set. -/
def readUTF (c : Codec) (s : DynBuffer) :
    Except (DynErr × DynBuffer) (String × DynBuffer) :=
  match readUnsignedShort s with
  | .error e => .error e
  | .ok (len, s1) => readMultiByte c s1 len "utf8"

/-- Models `writeUTFBytes(value)`: `writeMultiByte(value)` with both defaults. -/
def writeUTFBytes (c : Codec) (s : DynBuffer) (value : String) :
    Except (DynErr × DynBuffer) DynBuffer :=
  writeMultiByte c s value "utf8" false

/-- Models `readUTFBytes(length)`: `readMultiByte(length)` with the default
character set. -/
def readUTFBytes (c : Codec) (s : DynBuffer) (length : Nat) :
    Except (DynErr × DynBuffer) (String × DynBuffer) :=
  readMultiByte c s length "utf8"

end DynBuffer

/-- Standard UTF-8 encoding of a single code point (what iconv-lite's
`utf8` codec emits per character). -/
def utf8EncodeCharNat (c : Nat) : List Nat :=
  if c < 0x80 then
    [c]
  else if c < 0x800 then
    [0xC0 ||| (c >>> 6), 0x80 ||| (c &&& 0x3F)]
  else if c < 0x10000 then
    [0xE0 ||| (c >>> 12), 0x80 ||| ((c >>> 6) &&& 0x3F), 0x80 ||| (c &&& 0x3F)]
  else
    [0xF0 ||| (c >>> 18), 0x80 ||| ((c >>> 12) &&& 0x3F),
     0x80 ||| ((c >>> 6) &&& 0x3F), 0x80 ||| (c &&& 0x3F)]

/-- Whether a byte is a UTF-8 continuation byte `10xxxxxx`. -/
def isCont (b : Nat) : Bool :=
  0x80 ≤ b && b < 0xC0

/-- Fold the payload bits of continuation bytes onto the lead byte's
payload. -/
def utf8Combine (acc : Nat) (conts : List Nat) : Nat :=
  conts.foldl (fun a b => (a <<< 6) ||| (b &&& 0x3F)) acc

/-- Standard UTF-8 decoding, malformed sequences becoming U+FFFD (the
replacement-character behaviour of iconv-lite's `utf8` codec). -/
def utf8DecodeList : List Nat → List Char
  | [] => []
  | b :: bs =>
    if b < 0x80 then
      Char.ofNat b :: utf8DecodeList bs
    else if b < 0xC0 then
      '�' :: utf8DecodeList bs
    else
      let n := if b < 0xE0 then 1 else if b < 0xF0 then 2 else 3
      let mask := if b < 0xE0 then 0x1F else if b < 0xF0 then 0x0F else 0x07
      let conts := bs.take n
      if conts.length = n ∧ conts.all isCont then
        Char.ofNat (utf8Combine (b &&& mask) conts) :: utf8DecodeList (bs.drop n)
      else
        '�' :: utf8DecodeList bs
termination_by l => l.length
decreasing_by all_goals (simp only [List.length_cons, List.length_drop]; omega)

/-- The external codec service restricted to its `utf8` table, for
evaluating the spec's concrete scenarios (iconv-lite recognizes `utf8`
and encodes/decodes it as standard UTF-8 without BOM). -/
def utf8Codec : Codec where
  encodingExists name := name == "utf8"
  encode s _ := s.data.flatMap (fun ch => utf8EncodeCharNat ch.toNat)
  decode bs _ := String.mk (utf8DecodeList bs)

namespace DynBuffer

/-- The public operations of the class, one constructor per method or
setter, each carrying its JS arguments (numeric values as the
pattern/integer the accessor transports). -/
inductive Op where
  | writeByte (v : Int)
  | readByte
  | writeUnsignedByte (v : Nat)
  | readUnsignedByte
  | writeBytes (bytes : List Nat) (position length : Nat)
  | readBytes (bytes : List Nat) (position length : Nat)
  | writeBoolean (v : Bool)
  | readBoolean
  | writeShort (v : Int)
  | readShort
  | writeUnsignedShort (v : Nat)
  | readUnsignedShort
  | writeInt (v : Int)
  | readInt
  | writeUnsignedInt (v : Nat)
  | readUnsignedInt
  | writeFloat (pattern : Nat)
  | readFloat
  | writeDouble (pattern : Nat)
  | readDouble
  | writeLong (v : Int)
  | readLong
  | writeUnsignedLong (v : Nat)
  | readUnsignedLong
  | writeMultiByte (value : String) (charSet : String) (source : Bool)
  | readMultiByte (length : Nat) (charSet : String)
  | writeUTF (value : String)
  | readUTF
  | writeUTFBytes (value : String)
  | readUTFBytes (length : Nat)
  | clear
  | setLength (value : Nat)
  | setPosition (value : Nat)
  | setEndian (value : Endian)

/-- One public call as a state transition (return values dropped); the
error branch keeps the state at the moment of the throw. -/
def step (c : Codec) (op : Op) (s : DynBuffer) :
    Except (DynErr × DynBuffer) DynBuffer :=
  match op with
  | .writeByte v => writeByte s v
  | .readByte => (readByte s).map Prod.snd
  | .writeUnsignedByte v => writeUnsignedByte s v
  | .readUnsignedByte => (readUnsignedByte s).map Prod.snd
  | .writeBytes bytes p l => .ok (writeBytes s bytes p l)
  | .readBytes bytes p l => .ok (readBytes s bytes p l)
  | .writeBoolean v => writeBoolean s v
  | .readBoolean => (readBoolean s).map Prod.snd
  | .writeShort v => writeShort s v
  | .readShort => (readShort s).map Prod.snd
  | .writeUnsignedShort v => writeUnsignedShort s v
  | .readUnsignedShort => (readUnsignedShort s).map Prod.snd
  | .writeInt v => writeInt s v
  | .readInt => (readInt s).map Prod.snd
  | .writeUnsignedInt v => writeUnsignedInt s v
  | .readUnsignedInt => (readUnsignedInt s).map Prod.snd
  | .writeFloat pat => writeFloat s pat
  | .readFloat => (readFloat s).map Prod.snd
  | .writeDouble pat => writeDouble s pat
  | .readDouble => (readDouble s).map Prod.snd
  | .writeLong v => writeLong s v
  | .readLong => (readLong s).map Prod.snd
  | .writeUnsignedLong v => writeUnsignedLong s v
  | .readUnsignedLong => (readUnsignedLong s).map Prod.snd
  | .writeMultiByte value cs src => writeMultiByte c s value cs src
  | .readMultiByte len cs => (readMultiByte c s len cs).map Prod.snd
  | .writeUTF value => writeUTF c s value
  | .readUTF => (readUTF c s).map Prod.snd
  | .writeUTFBytes value => writeUTFBytes c s value
  | .readUTFBytes len => (readUTFBytes c s len).map Prod.snd
  | .clear => .ok (clear s)
  | .setLength v => .ok (setLength s v)
  | .setPosition v => .ok (setPosition s v)
  | .setEndian v => .ok (setEndian s v)

/-- The state in which a call leaves the instance, whether it returned or
threw. -/
def afterState (r : Except (DynErr × DynBuffer) DynBuffer) : DynBuffer :=
  match r with
  | .ok t => t
  | .error (_, t) => t

/-- The store length invariant: the backing `ArrayBuffer` can never pass
its `maxByteLength`. -/
def Inv (s : DynBuffer) : Prop :=
  s.stream.length ≤ MAX_CAPACITY

/-- A state-transition result advances the cursor by `w` on success and
leaves it unchanged on failure. -/
def AdvancesBy (r : Except (DynErr × DynBuffer) DynBuffer) (s : DynBuffer)
    (w : Nat) : Prop :=
  (∀ t, r = .ok t → t.position = s.position + w) ∧
  (∀ e t, r = .error (e, t) → t.position = s.position)

/-- Same, for a value-returning operation. -/
def AdvancesByR {α : Type} (r : Except (DynErr × DynBuffer) (α × DynBuffer))
    (s : DynBuffer) (w : Nat) : Prop :=
  (∀ v t, r = .ok (v, t) → t.position = s.position + w) ∧
  (∀ e t, r = .error (e, t) → t.position = s.position)

/-! ## Basic facts about the byte-level helpers -/

theorem bytesOfNat_length (w v : Nat) : (bytesOfNat w v).length = w := by
  induction w generalizing v with
  | zero => rfl
  | succ w ih => simp [bytesOfNat, ih]

theorem natOfBytesLE_bytesOfNat (w v : Nat) :
    natOfBytesLE (bytesOfNat w v) = v % 2 ^ (8 * w) := by
  induction w generalizing v with
  | zero => simp [bytesOfNat, natOfBytesLE, Nat.mod_one]
  | succ w ih =>
    have h : 2 ^ (8 * (w + 1)) = 256 * 2 ^ (8 * w) := by
      rw [show 8 * (w + 1) = 8 + 8 * w by ring, pow_add]
      norm_num
    rw [h, Nat.mod_mul]
    simp [bytesOfNat, natOfBytesLE, ih]

theorem orientBytes_length (e : Endian) (w v : Nat) :
    (orientBytes e w v).length = w := by
  cases e <;> simp [orientBytes, bytesOfNat_length]

theorem resize_length (l : List Nat) (n : Nat) : (resize l n).length = n := by
  simp [resize]
  omega

theorem storeBytes_length {l : List Nat} {pos : Nat} {bs : List Nat}
    (h : pos + bs.length ≤ l.length) :
    (storeBytes l pos bs).length = l.length := by
  simp [storeBytes]
  omega

theorem storeBytes_extract {l : List Nat} {pos : Nat} {bs : List Nat}
    (h : pos ≤ l.length) :
    ((storeBytes l pos bs).drop pos).take bs.length = bs := by
  unfold storeBytes
  rw [List.append_assoc, List.drop_left' (by simp [List.length_take]; omega)]
  exact List.take_left bs _

/-! ## `#ensureCapacity` -/

/-- Normal form of `#ensureCapacity`: the source's
`length + (bytes - bytesAvailable)` is `position + bytes`, growth happens
exactly when fewer than `bytes` bytes are left, and the resize throws
exactly when the new length passes `maxByteLength`. -/
theorem ensureCapacity_eq (s : DynBuffer) (b : Nat) :
    ensureCapacity s b =
      if s.stream.length < s.position + b then
        if MAX_CAPACITY < s.position + b then .error .capacityExceeded
        else .ok (resize s.stream (s.position + b))
      else .ok s.stream := by
  have hM : (MAX_CAPACITY : Nat) = 1073741824 := by norm_num [MAX_CAPACITY]
  have hcond : (bytesAvailable s < (b : Int)) ↔ s.stream.length < s.position + b := by
    unfold bytesAvailable
    omega
  have htoNat : ((s.stream.length : Int) + ((b : Int) - bytesAvailable s)).toNat
      = s.position + b := by
    unfold bytesAvailable
    omega
  have hmax : ((MAX_CAPACITY : Int) < (s.stream.length : Int) + ((b : Int) - bytesAvailable s))
      ↔ MAX_CAPACITY < s.position + b := by
    unfold bytesAvailable
    rw [hM]
    omega
  unfold ensureCapacity
  by_cases h1 : s.stream.length < s.position + b
  · rw [if_pos (hcond.mpr h1), if_pos h1]
    by_cases h2 : MAX_CAPACITY < s.position + b
    · rw [if_pos (hmax.mpr h2), if_pos h2]
    · rw [if_neg (fun hc => h2 (hmax.mp hc)), if_neg h2, htoNat]
  · rw [if_neg (fun hc => h1 (hcond.mp hc)), if_neg h1]

theorem ensureCapacity_ok_length {s : DynBuffer} {b : Nat} {l : List Nat}
    (h : ensureCapacity s b = .ok l) :
    l.length = max s.stream.length (s.position + b) := by
  rw [ensureCapacity_eq] at h
  by_cases h1 : s.stream.length < s.position + b
  · rw [if_pos h1] at h
    by_cases h2 : MAX_CAPACITY < s.position + b
    · rw [if_pos h2] at h
      exact absurd h (by simp)
    · rw [if_neg h2] at h
      cases h
      rw [resize_length]
      omega
  · rw [if_neg h1] at h
    cases h
    omega

theorem ensureCapacity_error {s : DynBuffer} {b : Nat} {e : DynErr}
    (h : ensureCapacity s b = .error e) :
    e = .capacityExceeded ∧ s.stream.length < s.position + b ∧
      MAX_CAPACITY < s.position + b := by
  rw [ensureCapacity_eq] at h
  by_cases h1 : s.stream.length < s.position + b
  · rw [if_pos h1] at h
    by_cases h2 : MAX_CAPACITY < s.position + b
    · rw [if_pos h2] at h
      cases h
      exact ⟨rfl, h1, h2⟩
    · rw [if_neg h2] at h
      exact absurd h (by simp)
  · rw [if_neg h1] at h
    exact absurd h (by simp)

/-! ## The `#executeCall` engine -/

theorem executeWrite_ok {s : DynBuffer} {w : Nat} {inRange : Bool} {pat : Nat}
    {t : DynBuffer} (h : executeWrite s w inRange pat = .ok t) :
    t.position = s.position + w ∧ t.endian = s.endian ∧
      t.stream.length = max s.stream.length (s.position + w) ∧
      (t.stream.drop s.position).take w = orientBytes s.endian w pat := by
  unfold executeWrite at h
  cases hec : ensureCapacity s w with
  | error e => simp [hec] at h
  | ok grown =>
    simp only [hec] at h
    have hlen := ensureCapacity_ok_length hec
    cases hr : inRange with
    | false => simp [hr] at h
    | true =>
      rw [hr, if_pos rfl] at h
      cases h
      refine ⟨rfl, rfl, ?_, ?_⟩
      · rw [storeBytes_length]
        · exact hlen
        · rw [orientBytes_length, hlen]
          omega
      · have hx := @storeBytes_extract grown s.position
          (orientBytes s.endian w pat) (by omega)
        rw [orientBytes_length] at hx
        exact hx

theorem executeWrite_error {s : DynBuffer} {w : Nat} {inRange : Bool} {pat : Nat}
    {e : DynErr} {t : DynBuffer}
    (h : executeWrite s w inRange pat = .error (e, t)) :
    t.position = s.position ∧ t.endian = s.endian ∧
      t.stream.length = max s.stream.length (s.position + w) ∨ t = s := by
  unfold executeWrite at h
  cases hec : ensureCapacity s w with
  | error e' =>
    simp only [hec, Except.error.injEq, Prod.mk.injEq] at h
    right
    exact h.2.symm
  | ok grown =>
    simp only [hec] at h
    have hlen := ensureCapacity_ok_length hec
    cases hr : inRange with
    | true => rw [hr, if_pos rfl] at h; exact absurd h (by simp)
    | false =>
      rw [hr] at h
      simp only [Bool.false_eq_true, if_false, Except.error.injEq, Prod.mk.injEq] at h
      left
      rw [← h.2]
      exact ⟨rfl, rfl, hlen⟩

theorem executeRead_ok {s : DynBuffer} {w : Nat} {v : Nat} {t : DynBuffer}
    (h : executeRead s w = .ok (v, t)) :
    s.position + w ≤ s.stream.length ∧
      t = { s with position := s.position + w } ∧
      v = natOfBytesLE (match s.endian with
        | .LE => (s.stream.drop s.position).take w
        | .BE => ((s.stream.drop s.position).take w).reverse) := by
  unfold executeRead at h
  by_cases hb : s.position + w ≤ s.stream.length
  · rw [if_pos hb] at h
    cases h
    exact ⟨hb, rfl, rfl⟩
  · rw [if_neg hb] at h
    exact absurd h (by simp)

theorem executeRead_error {s : DynBuffer} {w : Nat} {e : DynErr} {t : DynBuffer}
    (h : executeRead s w = .error (e, t)) :
    t = s ∧ e = .outOfBounds ∧ s.stream.length < s.position + w := by
  unfold executeRead at h
  by_cases hb : s.position + w ≤ s.stream.length
  · rw [if_pos hb] at h
    exact absurd h (by simp)
  · rw [if_neg hb] at h
    cases h
    exact ⟨rfl, rfl, by omega⟩

/-- Writing a `w`-byte pattern and re-reading at the same position and
endianness recovers the pattern. -/
theorem executeWrite_executeRead {s : DynBuffer} {w : Nat} {inRange : Bool}
    {pat : Nat} {t : DynBuffer}
    (h : executeWrite s w inRange pat = .ok t) (hpat : pat < 2 ^ (8 * w)) :
    executeRead { t with position := s.position } w
      = .ok (pat, { t with position := s.position + w }) := by
  obtain ⟨hp, he, hl, hx⟩ := executeWrite_ok h
  unfold executeRead
  rw [if_pos (by simp only; omega)]
  simp only
  congr 1
  rw [hx, he]
  cases s.endian with
  | LE =>
    simp only [orientBytes]
    rw [natOfBytesLE_bytesOfNat, Nat.mod_eq_of_lt hpat]
  | BE =>
    simp only [orientBytes, List.reverse_reverse]
    rw [natOfBytesLE_bytesOfNat, Nat.mod_eq_of_lt hpat]

/-- Two's-complement decode of a two's-complement encode is the identity
on the representable range (auxiliary form with the powers as linear
parameters). -/
theorem toSigned_ofSigned_aux (w : Nat) (half : Int) (hhalf : 0 < half)
    (hbig : (2 : Int) ^ (8 * w) = 2 * half)
    (hhalfNat : (((2 : Nat) ^ (8 * w - 1) : Nat) : Int) = half)
    (v : Int) (h1 : -half ≤ v) (h2 : v < half) :
    toSigned w (ofSigned w v) = v := by
  have hmod : v % ((2 : Int) ^ (8 * w)) = if 0 ≤ v then v else v + 2 * half := by
    rw [hbig]
    split_ifs with h0
    · exact Int.emod_eq_of_lt h0 (by omega)
    · have hstep : (v + 2 * half) % (2 * half) = v % (2 * half) := by
        have : v + 2 * half = v + 2 * half * 1 := by ring
        rw [this, Int.add_mul_emod_self_left]
      rw [← hstep]
      exact Int.emod_eq_of_lt (by omega) (by omega)
  have hpowNat : ((2 : Nat) ^ (8 * w - 1) : Nat) = half.toNat := by omega
  unfold toSigned ofSigned
  rw [hmod, hpowNat]
  split_ifs with h0 hlt hlt
  all_goals omega

theorem executeWrite_false {s : DynBuffer} {w pat : Nat} {t : DynBuffer} :
    executeWrite s w false pat ≠ .ok t := by
  unfold executeWrite
  cases hec : ensureCapacity s w <;> simp

/-- Unsigned write/read round trip: a successful `writeUInt*`-style write
re-read at the written offset yields the written value. -/
theorem executeWriteUnsigned_read {s : DynBuffer} {w v : Nat} {t : DynBuffer}
    (h : executeWriteUnsigned s w v = .ok t) :
    executeRead { t with position := s.position } w
      = .ok (v, { t with position := s.position + w }) := by
  unfold executeWriteUnsigned at h
  have hv : v < 2 ^ (8 * w) := by
    by_cases hv : v < 2 ^ (8 * w)
    · exact hv
    · rw [decide_eq_false hv] at h
      exact absurd h executeWrite_false
  rw [decide_eq_true hv] at h
  exact executeWrite_executeRead h hv

/-- Signed write/read round trip, with the relevant powers of two provided
as linear facts. -/
theorem executeWriteSigned_read {s : DynBuffer} {w : Nat} {v : Int} {t : DynBuffer}
    (half : Int) (hhalf : 0 < half)
    (hbig : (2 : Int) ^ (8 * w) = 2 * half)
    (hhalfNat : (((2 : Nat) ^ (8 * w - 1) : Nat) : Int) = half)
    (h : executeWriteSigned s w v = .ok t) :
    executeReadSigned { t with position := s.position } w
      = .ok (v, { t with position := s.position + w }) := by
  unfold executeWriteSigned at h
  have hcast : ((2 : Int) ^ (8 * w - 1)) = half := by
    rw [← hhalfNat]
    push_cast
    rfl
  have hrange : -half ≤ v ∧ v < half := by
    by_cases hr : -((2 : Int) ^ (8 * w - 1)) ≤ v ∧ v < (2 : Int) ^ (8 * w - 1)
    · rw [hcast] at hr
      exact hr
    · rw [decide_eq_false hr] at h
      exact absurd h executeWrite_false
  have hpat : ofSigned w v < 2 ^ (8 * w) := by
    unfold ofSigned
    have hpos : (0 : Int) < (2 : Int) ^ (8 * w) := by positivity
    have h1 := Int.emod_nonneg v (b := (2 : Int) ^ (8 * w)) (by positivity)
    have h2 := Int.emod_lt_of_pos v (b := (2 : Int) ^ (8 * w)) hpos
    have hc : (((2 : Nat) ^ (8 * w) : Nat) : Int) = (2 : Int) ^ (8 * w) := by
      push_cast
      rfl
    omega
  have hread := executeWrite_executeRead h hpat
  unfold executeReadSigned
  rw [hread]
  simp only [Except.map]
  rw [toSigned_ofSigned_aux w half hhalf hbig hhalfNat v hrange.1 hrange.2]

theorem executeWrite_error_position {s : DynBuffer} {w : Nat} {inRange : Bool}
    {pat : Nat} {e : DynErr} {t : DynBuffer}
    (h : executeWrite s w inRange pat = .error (e, t)) :
    t.position = s.position := by
  rcases executeWrite_error h with ⟨hp, _, _⟩ | rfl
  · exact hp
  · rfl

theorem ensureCapacity_ok_max {s : DynBuffer} {b : Nat} {l : List Nat}
    (h : ensureCapacity s b = .ok l) (hs : Inv s) :
    l.length ≤ MAX_CAPACITY := by
  rw [ensureCapacity_eq] at h
  by_cases h1 : s.stream.length < s.position + b
  · rw [if_pos h1] at h
    by_cases h2 : MAX_CAPACITY < s.position + b
    · rw [if_pos h2] at h
      exact absurd h (by simp)
    · rw [if_neg h2] at h
      cases h
      rw [resize_length]
      omega
  · rw [if_neg h1] at h
    cases h
    exact hs

theorem executeWrite_capacity {s : DynBuffer} {w : Nat} {inRange : Bool}
    {pat : Nat} (hs : Inv s) :
    Inv (afterState (executeWrite s w inRange pat)) := by
  unfold executeWrite
  cases hec : ensureCapacity s w with
  | error e => exact hs
  | ok grown =>
    have hg := ensureCapacity_ok_max hec hs
    have hlen := ensureCapacity_ok_length hec
    cases inRange with
    | false => exact hg
    | true =>
      show (storeBytes grown s.position (orientBytes s.endian w pat)).length ≤ _
      rw [storeBytes_length (by rw [orientBytes_length]; omega)]
      exact hg

theorem executeWriteUnsigned_capacity {s : DynBuffer} {w v : Nat} (hs : Inv s) :
    Inv (afterState (executeWriteUnsigned s w v)) :=
  executeWrite_capacity hs

theorem executeWriteSigned_capacity {s : DynBuffer} {w : Nat} {v : Int} (hs : Inv s) :
    Inv (afterState (executeWriteSigned s w v)) :=
  executeWrite_capacity hs

theorem setLength_capacity {s : DynBuffer} {n : Nat} (hs : Inv s) :
    Inv (setLength s n) := by
  unfold Inv at hs ⊢
  unfold setLength
  split_ifs
  · exact hs
  · simp [List.length_take]
    omega

/-! ## The text-codec bridge -/

theorem readMultiByte_known {c : Codec} {cs : String} (h : c.encodingExists cs = true)
    (s : DynBuffer) (n : Nat) :
    readMultiByte c s n cs
      = .ok (c.decode ((s.stream.drop s.position).take n) cs,
             { s with position := s.position + n }) := by
  unfold readMultiByte
  rw [h]
  simp

theorem readMultiByte_unknown {c : Codec} {cs : String} (h : c.encodingExists cs = false)
    (s : DynBuffer) (n : Nat) :
    readMultiByte c s n cs = .error (.unsupportedEncoding, s) := by
  unfold readMultiByte
  rw [h]
  simp

theorem writeMultiByte_unknown {c : Codec} {cs : String} (h : c.encodingExists cs = false)
    (s : DynBuffer) (val : String) (src : Bool) :
    writeMultiByte c s val cs src = .error (.unsupportedEncoding, s) := by
  unfold writeMultiByte
  rw [h]
  simp

theorem writeMultiByte_known_true {c : Codec} {cs : String}
    (h : c.encodingExists cs = true) (s : DynBuffer) (val : String) :
    writeMultiByte c s val cs true
      = match writeUnsignedShort s (c.encode val cs).length with
        | .error e => .error e
        | .ok s1 => .ok s1 := by
  unfold writeMultiByte
  rw [h]
  simp [writeBytes]

theorem writeMultiByte_known_false {c : Codec} {cs : String}
    (h : c.encodingExists cs = true) (s : DynBuffer) (val : String) :
    writeMultiByte c s val cs false = .ok s := by
  unfold writeMultiByte
  rw [h]
  simp [writeBytes]

theorem writeMultiByte_capacity {c : Codec} {s : DynBuffer} {val cs : String}
    {src : Bool} (hs : Inv s) :
    Inv (afterState (writeMultiByte c s val cs src)) := by
  cases hname : c.encodingExists cs with
  | false => rw [writeMultiByte_unknown hname]; exact hs
  | true =>
    cases src with
    | false => rw [writeMultiByte_known_false hname]; exact hs
    | true =>
      rw [writeMultiByte_known_true hname]
      have hc := executeWriteUnsigned_capacity (w := 2)
        (v := (c.encode val cs).length) hs
      cases hw : writeUnsignedShort s (c.encode val cs).length with
      | error e =>
        unfold writeUnsignedShort at hw
        rw [hw] at hc
        exact hc
      | ok s1 =>
        unfold writeUnsignedShort at hw
        rw [hw] at hc
        exact hc

theorem readMultiByte_capacity {c : Codec} {s : DynBuffer} {cs : String} {n : Nat}
    (hs : Inv s) :
    Inv (afterState ((readMultiByte c s n cs).map Prod.snd)) := by
  cases hname : c.encodingExists cs with
  | false => rw [readMultiByte_unknown hname]; exact hs
  | true => rw [readMultiByte_known hname]; exact hs

end DynBuffer

namespace DynBuffer

/-! ## The claims -/

theorem executeWrite_advances (s : DynBuffer) (w : Nat) (inRange : Bool)
    (pat : Nat) : AdvancesBy (executeWrite s w inRange pat) s w :=
  ⟨fun _ h => (executeWrite_ok h).1, fun _ _ h => executeWrite_error_position h⟩

theorem executeRead_advances (s : DynBuffer) (w : Nat) :
    AdvancesByR (executeRead s w) s w := by
  constructor
  · intro v t h
    obtain ⟨_, rfl, _⟩ := executeRead_ok h
    rfl
  · intro e t h
    obtain ⟨rfl, _, _⟩ := executeRead_error h
    rfl

theorem advancesByR_map {α β : Type} {r : Except (DynErr × DynBuffer) (α × DynBuffer)}
    {s : DynBuffer} {w : Nat} (f : α → β) (h : AdvancesByR r s w) :
    AdvancesByR (r.map (fun p => (f p.1, p.2))) s w := by
  obtain ⟨hok, herr⟩ := h
  constructor
  · intro v t hm
    cases r with
    | error e => simp [Except.map] at hm
    | ok p =>
      obtain ⟨pv, pt⟩ := p
      simp only [Except.map, Except.ok.injEq, Prod.mk.injEq] at hm
      rw [← hm.2]
      exact hok pv pt rfl
  · intro e t hm
    cases r with
    | ok p => simp [Except.map] at hm
    | error e' =>
      obtain ⟨e1, t1⟩ := e'
      simp only [Except.map, Except.error.injEq, Prod.mk.injEq] at hm
      rw [← hm.2]
      exact herr e1 t1 rfl

/-- C1: for every supported primitive type (signed/unsigned 8/16/32-bit
integers, IEEE-754 float and double as bit patterns, signed/unsigned
64-bit integers, boolean) and every representable value, starting from any
buffer state, a successful write of the value followed by the matching
read at the position the value was written, under the same endianness,
returns a value equal to the one written. -/
theorem C1_roundtrip :
    (∀ s v t, writeByte s v = .ok t →
      readByte { t with position := s.position }
        = .ok (v, { t with position := s.position + 1 })) ∧
    (∀ s v t, writeUnsignedByte s v = .ok t →
      readUnsignedByte { t with position := s.position }
        = .ok (v, { t with position := s.position + 1 })) ∧
    (∀ s v t, writeBoolean s v = .ok t →
      readBoolean { t with position := s.position }
        = .ok (v, { t with position := s.position + 1 })) ∧
    (∀ s v t, writeShort s v = .ok t →
      readShort { t with position := s.position }
        = .ok (v, { t with position := s.position + 2 })) ∧
    (∀ s v t, writeUnsignedShort s v = .ok t →
      readUnsignedShort { t with position := s.position }
        = .ok (v, { t with position := s.position + 2 })) ∧
    (∀ s v t, writeInt s v = .ok t →
      readInt { t with position := s.position }
        = .ok (v, { t with position := s.position + 4 })) ∧
    (∀ s v t, writeUnsignedInt s v = .ok t →
      readUnsignedInt { t with position := s.position }
        = .ok (v, { t with position := s.position + 4 })) ∧
    (∀ s pat t, pat < 2 ^ 32 → writeFloat s pat = .ok t →
      readFloat { t with position := s.position }
        = .ok (pat, { t with position := s.position + 4 })) ∧
    (∀ s pat t, pat < 2 ^ 64 → writeDouble s pat = .ok t →
      readDouble { t with position := s.position }
        = .ok (pat, { t with position := s.position + 8 })) ∧
    (∀ s v t, writeLong s v = .ok t →
      readLong { t with position := s.position }
        = .ok (v, { t with position := s.position + 8 })) ∧
    (∀ s v t, writeUnsignedLong s v = .ok t →
      readUnsignedLong { t with position := s.position }
        = .ok (v, { t with position := s.position + 8 })) := by
  refine ⟨?_, ?_, ?_, ?_, ?_, ?_, ?_, ?_, ?_, ?_, ?_⟩
  · exact fun s v t h =>
      executeWriteSigned_read (2 ^ 7) (by norm_num) (by norm_num) (by norm_num) h
  · exact fun s v t h => executeWriteUnsigned_read h
  · intro s v t h
    have hb := executeWriteSigned_read (2 ^ 7) (by norm_num) (by norm_num)
      (by norm_num) (h := h)
    unfold readBoolean readByte
    rw [hb]
    simp only [Except.map]
    cases v <;> simp
  · exact fun s v t h =>
      executeWriteSigned_read (2 ^ 15) (by norm_num) (by norm_num) (by norm_num) h
  · exact fun s v t h => executeWriteUnsigned_read h
  · exact fun s v t h =>
      executeWriteSigned_read (2 ^ 31) (by norm_num) (by norm_num) (by norm_num) h
  · exact fun s v t h => executeWriteUnsigned_read h
  · exact fun s pat t hlt h => executeWrite_executeRead h hlt
  · exact fun s pat t hlt h => executeWrite_executeRead h hlt
  · exact fun s v t h =>
      executeWriteSigned_read (2 ^ 63) (by norm_num) (by norm_num) (by norm_num) h
  · exact fun s v t h => executeWriteUnsigned_read h

/-- Witness for C1: every conjunct exercised on a fresh buffer with a
concrete representable value. -/
theorem C1_roundtrip_witness :
    readByte ⟨[251], 0, .BE⟩ = .ok (-5, ⟨[251], 1, .BE⟩) ∧
    readUnsignedByte ⟨[200], 0, .BE⟩ = .ok (200, ⟨[200], 1, .BE⟩) ∧
    readBoolean ⟨[1], 0, .BE⟩ = .ok (true, ⟨[1], 1, .BE⟩) ∧
    readShort ⟨[255, 254], 0, .BE⟩ = .ok (-2, ⟨[255, 254], 2, .BE⟩) ∧
    readUnsignedShort ⟨[190, 239], 0, .BE⟩ = .ok (48879, ⟨[190, 239], 2, .BE⟩) ∧
    readInt ⟨[255, 254, 121, 96], 0, .BE⟩
      = .ok (-100000, ⟨[255, 254, 121, 96], 4, .BE⟩) ∧
    readUnsignedInt ⟨[18, 52, 86, 120], 0, .BE⟩
      = .ok (0x12345678, ⟨[18, 52, 86, 120], 4, .BE⟩) ∧
    readFloat ⟨[63, 128, 0, 0], 0, .BE⟩
      = .ok (0x3F800000, ⟨[63, 128, 0, 0], 4, .BE⟩) ∧
    readDouble ⟨[63, 240, 0, 0, 0, 0, 0, 0], 0, .BE⟩
      = .ok (0x3FF0000000000000, ⟨[63, 240, 0, 0, 0, 0, 0, 0], 8, .BE⟩) ∧
    readLong ⟨[255, 255, 255, 255, 255, 255, 255, 254], 0, .BE⟩
      = .ok (-2, ⟨[255, 255, 255, 255, 255, 255, 255, 254], 8, .BE⟩) ∧
    readUnsignedLong ⟨[128, 0, 0, 0, 0, 0, 0, 3], 0, .BE⟩
      = .ok (2 ^ 63 + 3, ⟨[128, 0, 0, 0, 0, 0, 0, 3], 8, .BE⟩) := by
  refine ⟨?_, ?_, ?_, ?_, ?_, ?_, ?_, ?_, ?_, ?_, ?_⟩
  · exact C1_roundtrip.1 DynBuffer.new (-5) ⟨[251], 1, .BE⟩ rfl
  · exact C1_roundtrip.2.1 DynBuffer.new 200 ⟨[200], 1, .BE⟩ rfl
  · exact C1_roundtrip.2.2.1 DynBuffer.new true ⟨[1], 1, .BE⟩ rfl
  · exact C1_roundtrip.2.2.2.1 DynBuffer.new (-2) ⟨[255, 254], 2, .BE⟩ rfl
  · exact C1_roundtrip.2.2.2.2.1 DynBuffer.new 48879 ⟨[190, 239], 2, .BE⟩ rfl
  · exact C1_roundtrip.2.2.2.2.2.1 DynBuffer.new (-100000)
      ⟨[255, 254, 121, 96], 4, .BE⟩ rfl
  · exact C1_roundtrip.2.2.2.2.2.2.1 DynBuffer.new 0x12345678
      ⟨[18, 52, 86, 120], 4, .BE⟩ rfl
  · exact C1_roundtrip.2.2.2.2.2.2.2.1 DynBuffer.new 0x3F800000
      ⟨[63, 128, 0, 0], 4, .BE⟩ (by norm_num) rfl
  · exact C1_roundtrip.2.2.2.2.2.2.2.2.1 DynBuffer.new 0x3FF0000000000000
      ⟨[63, 240, 0, 0, 0, 0, 0, 0], 8, .BE⟩ (by norm_num) rfl
  · exact C1_roundtrip.2.2.2.2.2.2.2.2.2.1 DynBuffer.new (-2)
      ⟨[255, 255, 255, 255, 255, 255, 255, 254], 8, .BE⟩ rfl
  · exact C1_roundtrip.2.2.2.2.2.2.2.2.2.2 DynBuffer.new (2 ^ 63 + 3)
      ⟨[128, 0, 0, 0, 0, 0, 0, 3], 8, .BE⟩ rfl

/-- C2 (counterexample): `writeUTF("hi")` on a fresh buffer succeeds
(returning normally) yet advances the cursor by only 2, the length
prefix — not by the operation's byte width `2 + 2` (prefix plus encoded
payload), because the payload transfer `writeBytes` is a stub. -/
theorem C2_cursor_advance_counterexample :
    writeUTF utf8Codec DynBuffer.new "hi" = .ok ⟨[0, 2], 2, .BE⟩ ∧
    (utf8Codec.encode "hi" "utf8").length = 2 ∧
    (⟨[0, 2], 2, .BE⟩ : DynBuffer).position
      ≠ DynBuffer.new.position + (2 + (utf8Codec.encode "hi" "utf8").length) := by
  refine ⟨rfl, rfl, ?_⟩
  decide

/-- C2 (amended): every typed accessor advances the cursor by exactly its
type's byte width on success and leaves it unchanged on failure, and
`readMultiByte`/`readUTF`/`readUTFBytes` advance by exactly the requested
byte count (plus the 2-byte prefix for `readUTF`); but the multibyte
*write* operations advance only by the bytes actually transferred — the
2-byte length prefix when requested and nothing otherwise — because the
bulk payload transfer `writeBytes` (and `readBytes`) is an unimplemented
no-op. -/
theorem C2_cursor_advance (c : Codec) (hutf8 : c.encodingExists "utf8" = true) :
    (∀ s v, AdvancesBy (writeByte s v) s 1) ∧
    (∀ s, AdvancesByR (readByte s) s 1) ∧
    (∀ s v, AdvancesBy (writeUnsignedByte s v) s 1) ∧
    (∀ s, AdvancesByR (readUnsignedByte s) s 1) ∧
    (∀ s v, AdvancesBy (writeBoolean s v) s 1) ∧
    (∀ s, AdvancesByR (readBoolean s) s 1) ∧
    (∀ s v, AdvancesBy (writeShort s v) s 2) ∧
    (∀ s, AdvancesByR (readShort s) s 2) ∧
    (∀ s v, AdvancesBy (writeUnsignedShort s v) s 2) ∧
    (∀ s, AdvancesByR (readUnsignedShort s) s 2) ∧
    (∀ s v, AdvancesBy (writeInt s v) s 4) ∧
    (∀ s, AdvancesByR (readInt s) s 4) ∧
    (∀ s v, AdvancesBy (writeUnsignedInt s v) s 4) ∧
    (∀ s, AdvancesByR (readUnsignedInt s) s 4) ∧
    (∀ s pat, AdvancesBy (writeFloat s pat) s 4) ∧
    (∀ s, AdvancesByR (readFloat s) s 4) ∧
    (∀ s pat, AdvancesBy (writeDouble s pat) s 8) ∧
    (∀ s, AdvancesByR (readDouble s) s 8) ∧
    (∀ s v, AdvancesBy (writeLong s v) s 8) ∧
    (∀ s, AdvancesByR (readLong s) s 8) ∧
    (∀ s v, AdvancesBy (writeUnsignedLong s v) s 8) ∧
    (∀ s, AdvancesByR (readUnsignedLong s) s 8) ∧
    (∀ s bytes p l, writeBytes s bytes p l = s ∧ readBytes s bytes p l = s) ∧
    (∀ cs, c.encodingExists cs = true →
      ∀ s n, AdvancesByR (readMultiByte c s n cs) s n) ∧
    (∀ cs s n e t, readMultiByte c s n cs = .error (e, t) → t.position = s.position) ∧
    (∀ s n s1, readUnsignedShort s = .ok (n, s1) →
      AdvancesByR (readUTF c s) s (2 + n)) ∧
    (∀ s e t, readUTF c s = .error (e, t) → t.position = s.position) ∧
    (∀ s n, AdvancesByR (readUTFBytes c s n) s n) ∧
    (∀ cs s val, AdvancesBy (writeMultiByte c s val cs true) s 2) ∧
    (∀ cs s val t, writeMultiByte c s val cs false = .ok t → t = s) ∧
    (∀ cs s val src e t, writeMultiByte c s val cs src = .error (e, t) →
      t.position = s.position) ∧
    (∀ s val, AdvancesBy (writeUTF c s val) s 2) ∧
    (∀ s val t, writeUTFBytes c s val = .ok t → t = s) := by
  have hrmb : ∀ cs, c.encodingExists cs = true →
      ∀ s n, AdvancesByR (readMultiByte c s n cs) s n := by
    intro cs hcs s n
    rw [readMultiByte_known hcs]
    constructor
    · intro v t hm
      cases hm
      rfl
    · intro e t hm
      exact absurd hm (by simp)
  have hrmbe : ∀ cs s n e t, readMultiByte c s n cs = .error (e, t) →
      t.position = s.position := by
    intro cs s n e t hm
    cases hcs : c.encodingExists cs with
    | true => rw [readMultiByte_known hcs] at hm; exact absurd hm (by simp)
    | false =>
      rw [readMultiByte_unknown hcs] at hm
      simp only [Except.error.injEq, Prod.mk.injEq] at hm
      rw [← hm.2]
  have hwmbt : ∀ cs s val, AdvancesBy (writeMultiByte c s val cs true) s 2 := by
    intro cs s val
    constructor
    · intro t hm
      cases hcs : c.encodingExists cs with
      | false => rw [writeMultiByte_unknown hcs] at hm; exact absurd hm (by simp)
      | true =>
        rw [writeMultiByte_known_true hcs] at hm
        cases hw : writeUnsignedShort s (c.encode val cs).length with
        | error e => rw [hw] at hm; exact absurd hm (by simp)
        | ok s1 =>
          rw [hw] at hm
          cases hm
          exact (executeWrite_ok hw).1
    · intro e t hm
      cases hcs : c.encodingExists cs with
      | false =>
        rw [writeMultiByte_unknown hcs] at hm
        simp only [Except.error.injEq, Prod.mk.injEq] at hm
        rw [← hm.2]
      | true =>
        rw [writeMultiByte_known_true hcs] at hm
        cases hw : writeUnsignedShort s (c.encode val cs).length with
        | ok s1 => rw [hw] at hm; exact absurd hm (by simp)
        | error e' =>
          obtain ⟨e1, t1⟩ := e'
          rw [hw] at hm
          simp only [Except.error.injEq, Prod.mk.injEq] at hm
          rw [← hm.2]
          exact executeWrite_error_position hw
  have hwmbf : ∀ cs s val t, writeMultiByte c s val cs false = .ok t → t = s := by
    intro cs s val t hm
    cases hcs : c.encodingExists cs with
    | false => rw [writeMultiByte_unknown hcs] at hm; exact absurd hm (by simp)
    | true =>
      rw [writeMultiByte_known_false hcs] at hm
      cases hm
      rfl
  have hwmbe : ∀ cs s val src e t, writeMultiByte c s val cs src = .error (e, t) →
      t.position = s.position := by
    intro cs s val src e t hm
    cases src with
    | true => exact (hwmbt cs s val).2 e t hm
    | false =>
      cases hcs : c.encodingExists cs with
      | false =>
        rw [writeMultiByte_unknown hcs] at hm
        simp only [Except.error.injEq, Prod.mk.injEq] at hm
        rw [← hm.2]
      | true => rw [writeMultiByte_known_false hcs] at hm; exact absurd hm (by simp)
  refine ⟨fun s v => executeWrite_advances s 1 _ _,
    fun s => advancesByR_map (toSigned 1) (executeRead_advances s 1),
    fun s v => executeWrite_advances s 1 _ _,
    fun s => executeRead_advances s 1,
    fun s v => executeWrite_advances s 1 _ _,
    fun s => by
      unfold readBoolean readByte executeReadSigned
      exact advancesByR_map (fun x : Int => decide (x ≠ 0))
        (advancesByR_map (toSigned 1) (executeRead_advances s 1)),
    fun s v => executeWrite_advances s 2 _ _,
    fun s => advancesByR_map (toSigned 2) (executeRead_advances s 2),
    fun s v => executeWrite_advances s 2 _ _,
    fun s => executeRead_advances s 2,
    fun s v => executeWrite_advances s 4 _ _,
    fun s => advancesByR_map (toSigned 4) (executeRead_advances s 4),
    fun s v => executeWrite_advances s 4 _ _,
    fun s => executeRead_advances s 4,
    fun s pat => executeWrite_advances s 4 _ _,
    fun s => executeRead_advances s 4,
    fun s pat => executeWrite_advances s 8 _ _,
    fun s => executeRead_advances s 8,
    fun s v => executeWrite_advances s 8 _ _,
    fun s => advancesByR_map (toSigned 8) (executeRead_advances s 8),
    fun s v => executeWrite_advances s 8 _ _,
    fun s => executeRead_advances s 8,
    fun s bytes p l => ⟨rfl, rfl⟩,
    hrmb, hrmbe, ?_, ?_, ?_, hwmbt, hwmbf, hwmbe,
    fun s val => hwmbt "utf8" s val,
    fun s val t h => hwmbf "utf8" s val t h⟩
  · intro s n s1 hr
    obtain ⟨hb, rfl, hv⟩ := executeRead_ok (w := 2) hr
    unfold readUTF
    simp only [hr]
    rw [readMultiByte_known hutf8]
    constructor
    · intro v t hm
      cases hm
      show s.position + 2 + n = s.position + (2 + n)
      omega
    · intro e t hm
      exact absurd hm (by simp)
  · intro s e t hm
    unfold readUTF at hm
    cases hr : readUnsignedShort s with
    | error e' =>
      obtain ⟨e1, t1⟩ := e'
      simp only [hr, Except.error.injEq, Prod.mk.injEq] at hm
      obtain ⟨rfl, _, _⟩ := executeRead_error (w := 2) hr
      rw [← hm.2]
    | ok p =>
      obtain ⟨n, s1⟩ := p
      simp only [hr] at hm
      rw [readMultiByte_known hutf8] at hm
      exact absurd hm (by simp)
  · intro s n
    exact hrmb "utf8" hutf8 s n

/-- Witness for C2 (amended): a 1-byte write and a `writeUTF` exercised on
a fresh buffer. -/
theorem C2_cursor_advance_witness :
    (⟨[5], 1, .BE⟩ : DynBuffer).position = 0 + 1 ∧
    (⟨[0, 2], 2, .BE⟩ : DynBuffer).position = 0 + 2 := by
  obtain ⟨h1, -, -, -, -, -, -, -, -, -, -, -, -, -, -, -, -, -, -, -, -, -,
      -, -, -, -, -, -, -, -, -, h32, -⟩ := C2_cursor_advance utf8Codec rfl
  constructor
  · exact (h1 DynBuffer.new 5).1 ⟨[5], 1, .BE⟩ rfl
  · exact (h32 DynBuffer.new "hi").1 ⟨[0, 2], 2, .BE⟩ rfl

theorem utf8DecodeList_nil : utf8DecodeList [] = [] := by
  simp [utf8DecodeList]

theorem utf8Codec_decode_nil : utf8Codec.decode [] "utf8" = "" := by
  show String.mk (utf8DecodeList []) = ""
  rw [utf8DecodeList_nil]

/-- C3 (counterexample): truncating a 10-byte buffer whose cursor sits at
2 down to length 5 moves the cursor *forward* to 5; the source sets
`position` to the new length unconditionally, not to
`min(position, n)`. -/
theorem C3_truncate_counterexample :
    (setLength ⟨List.replicate 10 0, 2, .BE⟩ 5).position = 5 ∧
    (5 : Nat) ≠ min 2 5 := by
  exact ⟨rfl, by decide⟩

/-- C3 (amended): assigning `length = n` with `n ≤ current length`
truncates the store to its first `n` bytes and sets `position = n`
unconditionally (even when the old position was below `n`), leaving the
endianness unchanged. -/
theorem C3_truncate (s : DynBuffer) (n : Nat) (h : n ≤ s.stream.length) :
    (setLength s n).stream = s.stream.take n ∧ (setLength s n).position = n ∧
    (setLength s n).endian = s.endian := by
  unfold setLength
  rw [if_neg (by omega)]
  refine ⟨rfl, ?_, rfl⟩
  simp only [List.length_take]
  omega

/-- Witness for C3 (amended): truncating `[7, 8]` at cursor 2 to length
1. -/
theorem C3_truncate_witness :
    (setLength ⟨[7, 8], 2, .BE⟩ 1).stream = [7] ∧
    (setLength ⟨[7, 8], 2, .BE⟩ 1).position = 1 ∧
    (setLength ⟨[7, 8], 2, .BE⟩ 1).endian = .BE := by
  exact C3_truncate ⟨[7, 8], 2, .BE⟩ 1 (by decide)

/-- C4: `writeUTF("hi")` on a fresh big-endian buffer should store
`[0x00, 0x02, 0x68, 0x69]` and a `readUTF()` from position 0 should
return `"hi"`; but because `writeBytes` is an unimplemented stub the code
stores only the length prefix `[0x00, 0x02]` (even though the UTF-8
encoder does produce `[0x68, 0x69]`), and the subsequent `readUTF()` from
position 0 decodes an empty clamped slice, returning `""`. -/
theorem C4_writeUTF_bug :
    writeUTF utf8Codec DynBuffer.new "hi" = .ok ⟨[0x00, 0x02], 2, .BE⟩ ∧
    utf8Codec.encode "hi" "utf8" = [0x68, 0x69] ∧
    readUTF utf8Codec ⟨[0x00, 0x02], 0, .BE⟩ = .ok ("", ⟨[0x00, 0x02], 4, .BE⟩) ∧
    ([0x00, 0x02] : List Nat) ≠ [0x00, 0x02, 0x68, 0x69] := by
  refine ⟨rfl, rfl, ?_, by decide⟩
  have hstep : readUTF utf8Codec ⟨[0x00, 0x02], 0, .BE⟩
      = .ok (utf8Codec.decode [] "utf8", ⟨[0x00, 0x02], 4, .BE⟩) := rfl
  rw [hstep, utf8Codec_decode_nil]

/-- C5 (counterexample): `readMultiByte(5)` on a fresh empty buffer has
fewer than 5 bytes remaining, yet it does not fail: `subarray` clamps the
slice, the decode of the empty slice is returned, and the cursor advances
to 5 (past the end). -/
theorem C5_out_of_bounds_counterexample :
    readMultiByte utf8Codec DynBuffer.new 5 "utf8" = .ok ("", ⟨[], 5, .BE⟩) ∧
    (⟨[], 5, .BE⟩ : DynBuffer).position ≠ DynBuffer.new.position := by
  constructor
  · have hstep : readMultiByte utf8Codec DynBuffer.new 5 "utf8"
        = .ok (utf8Codec.decode [] "utf8", ⟨[], 5, .BE⟩) := rfl
    rw [hstep, utf8Codec_decode_nil]
  · decide

/-- C5 (amended): every typed read fails with `OutOfBounds`, leaving the
whole state (hence both position and length) unchanged, when fewer bytes
than its width remain; `readMultiByte` with a recognized character set
instead never fails on short data — it decodes the clamped slice and
advances the cursor by the full requested length. -/
theorem C5_read_bounds (c : Codec) :
    (∀ s, s.stream.length < s.position + 1 →
      readByte s = .error (.outOfBounds, s)) ∧
    (∀ s, s.stream.length < s.position + 1 →
      readUnsignedByte s = .error (.outOfBounds, s)) ∧
    (∀ s, s.stream.length < s.position + 1 →
      readBoolean s = .error (.outOfBounds, s)) ∧
    (∀ s, s.stream.length < s.position + 2 →
      readShort s = .error (.outOfBounds, s)) ∧
    (∀ s, s.stream.length < s.position + 2 →
      readUnsignedShort s = .error (.outOfBounds, s)) ∧
    (∀ s, s.stream.length < s.position + 4 →
      readInt s = .error (.outOfBounds, s)) ∧
    (∀ s, s.stream.length < s.position + 4 →
      readUnsignedInt s = .error (.outOfBounds, s)) ∧
    (∀ s, s.stream.length < s.position + 4 →
      readFloat s = .error (.outOfBounds, s)) ∧
    (∀ s, s.stream.length < s.position + 8 →
      readDouble s = .error (.outOfBounds, s)) ∧
    (∀ s, s.stream.length < s.position + 8 →
      readLong s = .error (.outOfBounds, s)) ∧
    (∀ s, s.stream.length < s.position + 8 →
      readUnsignedLong s = .error (.outOfBounds, s)) ∧
    (∀ cs, c.encodingExists cs = true → ∀ s n,
      readMultiByte c s n cs
        = .ok (c.decode ((s.stream.drop s.position).take n) cs,
               { s with position := s.position + n })) := by
  have herr : ∀ s w, s.stream.length < s.position + w →
      executeRead s w = .error (.outOfBounds, s) := by
    intro s w h
    unfold executeRead
    rw [if_neg (by omega)]
  refine ⟨?_, ?_, ?_, ?_, ?_, ?_, ?_, ?_, ?_, ?_, ?_, ?_⟩
  · intro s h
    unfold readByte executeReadSigned
    rw [herr s 1 h]
    rfl
  · exact fun s h => herr s 1 h
  · intro s h
    unfold readBoolean readByte executeReadSigned
    rw [herr s 1 h]
    rfl
  · intro s h
    unfold readShort executeReadSigned
    rw [herr s 2 h]
    rfl
  · exact fun s h => herr s 2 h
  · intro s h
    unfold readInt executeReadSigned
    rw [herr s 4 h]
    rfl
  · exact fun s h => herr s 4 h
  · exact fun s h => herr s 4 h
  · exact fun s h => herr s 8 h
  · intro s h
    unfold readLong executeReadSigned
    rw [herr s 8 h]
    rfl
  · exact fun s h => herr s 8 h
  · exact fun cs hcs s n => readMultiByte_known hcs s n

/-- Witness for C5 (amended): out-of-bounds typed reads on a fresh empty
buffer, and a clamped `readMultiByte` there. -/
theorem C5_read_bounds_witness :
    readByte DynBuffer.new = .error (.outOfBounds, DynBuffer.new) ∧
    readUnsignedLong DynBuffer.new = .error (.outOfBounds, DynBuffer.new) ∧
    readMultiByte utf8Codec DynBuffer.new 3 "utf8"
      = .ok (utf8Codec.decode [] "utf8", ⟨[], 3, .BE⟩) := by
  refine ⟨?_, ?_, ?_⟩
  · exact (C5_read_bounds utf8Codec).1 DynBuffer.new (by decide)
  · exact (C5_read_bounds utf8Codec).2.2.2.2.2.2.2.2.2.2.1 DynBuffer.new (by decide)
  · exact (C5_read_bounds utf8Codec).2.2.2.2.2.2.2.2.2.2.2 "utf8" rfl DynBuffer.new 3

/-- C6: `writeMultiByte` and `readMultiByte` with a character-set name the
external codec service does not recognize fail with
`UnsupportedEncoding`, leaving the buffer state entirely unchanged. -/
theorem C6_unsupported_encoding (c : Codec) (name : String)
    (h : c.encodingExists name = false) :
    (∀ s val src, writeMultiByte c s val name src
      = .error (.unsupportedEncoding, s)) ∧
    (∀ s n, readMultiByte c s n name = .error (.unsupportedEncoding, s)) :=
  ⟨fun s val src => writeMultiByte_unknown h s val src,
   fun s n => readMultiByte_unknown h s n⟩

/-- Witness for C6: iconv-lite (here its UTF-8 restriction) does not
recognize `"bogus-charset"`. -/
theorem C6_unsupported_encoding_witness :
    writeMultiByte utf8Codec DynBuffer.new "x" "bogus-charset" true
      = .error (.unsupportedEncoding, DynBuffer.new) ∧
    readMultiByte utf8Codec DynBuffer.new 5 "bogus-charset"
      = .error (.unsupportedEncoding, DynBuffer.new) :=
  ⟨(C6_unsupported_encoding utf8Codec "bogus-charset" rfl).1 DynBuffer.new "x" true,
   (C6_unsupported_encoding utf8Codec "bogus-charset" rfl).2 DynBuffer.new 5⟩

/-- C7: when fewer than `b` bytes are available, a successful
`ensureCapacity(b)` grows the store by exactly `b - bytesAvailable` (so
exactly `b` bytes are writable from the cursor afterwards); when at least
`b` bytes are available it returns the store unchanged; and on success the
new length is never below the old one. -/
theorem C7_ensureCapacity_growth (s : DynBuffer) (b : Nat) :
    (bytesAvailable s < (b : Int) →
      ∀ l, ensureCapacity s b = .ok l →
        (l.length : Int) = (s.stream.length : Int) + ((b : Int) - bytesAvailable s) ∧
        (l.length : Int) - (s.position : Int) = (b : Int)) ∧
    ((b : Int) ≤ bytesAvailable s → ensureCapacity s b = .ok s.stream) ∧
    (∀ l, ensureCapacity s b = .ok l → s.stream.length ≤ l.length) := by
  refine ⟨?_, ?_, ?_⟩
  · intro hav l hok
    have hlen := ensureCapacity_ok_length hok
    unfold bytesAvailable at hav ⊢
    constructor <;> omega
  · intro hav
    rw [ensureCapacity_eq,
      if_neg (show ¬s.stream.length < s.position + b by
        unfold bytesAvailable at hav; omega)]
  · intro l hok
    have hlen := ensureCapacity_ok_length hok
    omega

/-- Witness for C7: growing a fresh buffer for 3 bytes, and a no-growth
call on a buffer that already has 2 bytes available. -/
theorem C7_ensureCapacity_growth_witness :
    ((([0, 0, 0] : List Nat).length : Int)
        = (DynBuffer.new.stream.length : Int) + ((3 : Int) - bytesAvailable DynBuffer.new) ∧
      (([0, 0, 0] : List Nat).length : Int) - (DynBuffer.new.position : Int) = (3 : Int)) ∧
    ensureCapacity ⟨[9, 9], 0, .BE⟩ 2 = .ok [9, 9] := by
  constructor
  · exact (C7_ensureCapacity_growth DynBuffer.new 3).1 (by decide) [0, 0, 0] rfl
  · exact (C7_ensureCapacity_growth ⟨[9, 9], 0, .BE⟩ 2).2.1 (by decide)

/-- C8: the invariant `length ≤ MAX_CAPACITY` (with `MAX_CAPACITY = 2^30`)
holds on a fresh buffer and is preserved by every public operation, in
both its normal and its throwing outcome; and a growth request whose
resulting length would exceed `MAX_CAPACITY` fails deterministically with
`CapacityExceeded` instead of growing. -/
theorem C8_capacity_invariant (c : Codec) :
    Inv DynBuffer.new ∧
    (∀ op s, Inv s → Inv (afterState (step c op s))) ∧
    (∀ s b, s.stream.length < s.position + b → MAX_CAPACITY < s.position + b →
      ensureCapacity s b = .error .capacityExceeded) := by
  refine ⟨?_, ?_, ?_⟩
  · show ([] : List Nat).length ≤ MAX_CAPACITY
    simp [MAX_CAPACITY]
  · intro op s hs
    cases op with
    | writeByte v =>
      simp only [step]
      exact executeWriteSigned_capacity hs
    | readByte =>
      simp only [step, readByte, executeReadSigned, executeRead]
      split_ifs <;> exact hs
    | writeUnsignedByte v =>
      simp only [step]
      exact executeWriteUnsigned_capacity hs
    | readUnsignedByte =>
      simp only [step, readUnsignedByte, executeRead]
      split_ifs <;> exact hs
    | writeBytes bytes p l =>
      exact hs
    | readBytes bytes p l =>
      exact hs
    | writeBoolean v =>
      simp only [step]
      exact executeWriteSigned_capacity hs
    | readBoolean =>
      simp only [step, readBoolean, readByte, executeReadSigned, executeRead]
      split_ifs <;> exact hs
    | writeShort v =>
      simp only [step]
      exact executeWriteSigned_capacity hs
    | readShort =>
      simp only [step, readShort, executeReadSigned, executeRead]
      split_ifs <;> exact hs
    | writeUnsignedShort v =>
      simp only [step]
      exact executeWriteUnsigned_capacity hs
    | readUnsignedShort =>
      simp only [step, readUnsignedShort, executeRead]
      split_ifs <;> exact hs
    | writeInt v =>
      simp only [step]
      exact executeWriteSigned_capacity hs
    | readInt =>
      simp only [step, readInt, executeReadSigned, executeRead]
      split_ifs <;> exact hs
    | writeUnsignedInt v =>
      simp only [step]
      exact executeWriteUnsigned_capacity hs
    | readUnsignedInt =>
      simp only [step, readUnsignedInt, executeRead]
      split_ifs <;> exact hs
    | writeFloat pat =>
      simp only [step]
      exact executeWrite_capacity hs
    | readFloat =>
      simp only [step, readFloat, executeRead]
      split_ifs <;> exact hs
    | writeDouble pat =>
      simp only [step]
      exact executeWrite_capacity hs
    | readDouble =>
      simp only [step, readDouble, executeRead]
      split_ifs <;> exact hs
    | writeLong v =>
      simp only [step]
      exact executeWriteSigned_capacity hs
    | readLong =>
      simp only [step, readLong, executeReadSigned, executeRead]
      split_ifs <;> exact hs
    | writeUnsignedLong v =>
      simp only [step]
      exact executeWriteUnsigned_capacity hs
    | readUnsignedLong =>
      simp only [step, readUnsignedLong, executeRead]
      split_ifs <;> exact hs
    | writeMultiByte val cs src =>
      simp only [step]
      exact writeMultiByte_capacity hs
    | readMultiByte n cs =>
      simp only [step]
      exact readMultiByte_capacity hs
    | writeUTF val =>
      simp only [step]
      exact writeMultiByte_capacity hs
    | readUTF =>
      simp only [step, readUTF]
      cases hr : readUnsignedShort s with
      | error e =>
        obtain ⟨e1, t1⟩ := e
        simp only [hr]
        obtain ⟨rfl, -, -⟩ := executeRead_error (w := 2) hr
        exact hs
      | ok p =>
        obtain ⟨n, s1⟩ := p
        simp only [hr]
        obtain ⟨hb, rfl, hv⟩ := executeRead_ok (w := 2) hr
        exact readMultiByte_capacity hs
    | writeUTFBytes val =>
      simp only [step]
      exact writeMultiByte_capacity hs
    | readUTFBytes n =>
      simp only [step]
      exact readMultiByte_capacity hs
    | clear =>
      simp only [step, clear]
      exact setLength_capacity (s := { s with position := 0 }) hs
    | setLength n =>
      simp only [step]
      exact setLength_capacity hs
    | setPosition n =>
      exact hs
    | setEndian e =>
      exact hs
  · intro s b h1 h2
    rw [ensureCapacity_eq, if_pos h1, if_pos h2]

/-- Witness for C8: one step on the fresh buffer, and a capacity failure
with the cursor already at `MAX_CAPACITY`. -/
theorem C8_capacity_invariant_witness :
    Inv (afterState (step utf8Codec (Op.writeUnsignedByte 7) DynBuffer.new)) ∧
    ensureCapacity ⟨[], 2 ^ 30, .BE⟩ 1 = .error .capacityExceeded := by
  constructor
  · exact (C8_capacity_invariant utf8Codec).2.1 (Op.writeUnsignedByte 7)
      DynBuffer.new (C8_capacity_invariant utf8Codec).1
  · exact (C8_capacity_invariant utf8Codec).2.2 ⟨[], 2 ^ 30, .BE⟩ 1
      (by decide) (by decide)

/-- C9: every multi-byte write accessor (all are instances of the
`#executeCall` write engine at width ≥ 2) stores under `BE` the exact
reverse of the byte sequence it stores under `LE`; in particular
`writeUnsignedInt(0x12345678)` stores `[0x12, 0x34, 0x56, 0x78]` under
`BE` (final position 4) and `[0x78, 0x56, 0x34, 0x12]` under `LE`. -/
theorem C9_endian_reversal :
    (∀ s w v tBE tLE, 2 ≤ w →
      executeWriteUnsigned (setEndian s .BE) w v = .ok tBE →
      executeWriteUnsigned (setEndian s .LE) w v = .ok tLE →
      (tBE.stream.drop s.position).take w
        = ((tLE.stream.drop s.position).take w).reverse) ∧
    (∀ s w v tBE tLE, 2 ≤ w →
      executeWriteSigned (setEndian s .BE) w v = .ok tBE →
      executeWriteSigned (setEndian s .LE) w v = .ok tLE →
      (tBE.stream.drop s.position).take w
        = ((tLE.stream.drop s.position).take w).reverse) ∧
    writeUnsignedInt (setEndian DynBuffer.new .BE) 0x12345678
      = .ok ⟨[0x12, 0x34, 0x56, 0x78], 4, .BE⟩ ∧
    (⟨[0x12, 0x34, 0x56, 0x78], 4, .BE⟩ : DynBuffer).position = 4 ∧
    writeUnsignedInt (setEndian DynBuffer.new .LE) 0x12345678
      = .ok ⟨[0x78, 0x56, 0x34, 0x12], 4, .LE⟩ := by
  refine ⟨?_, ?_, rfl, rfl, rfl⟩
  · intro s w v tBE tLE hw hBE hLE
    unfold executeWriteUnsigned at hBE hLE
    have h1 := (executeWrite_ok hBE).2.2.2
    have h2 := (executeWrite_ok hLE).2.2.2
    simp only [setEndian] at h1 h2
    rw [h1, h2]
    simp [orientBytes]
  · intro s w v tBE tLE hw hBE hLE
    unfold executeWriteSigned at hBE hLE
    have h1 := (executeWrite_ok hBE).2.2.2
    have h2 := (executeWrite_ok hLE).2.2.2
    simp only [setEndian] at h1 h2
    rw [h1, h2]
    simp [orientBytes]

/-- Witness for C9: an unsigned short written under both byte orders on a
fresh buffer. -/
theorem C9_endian_reversal_witness :
    ([0xAA, 0xBB] : List Nat) = ([0xBB, 0xAA] : List Nat).reverse := by
  exact C9_endian_reversal.1 DynBuffer.new 2 0xAABB
    ⟨[0xAA, 0xBB], 2, .BE⟩ ⟨[0xBB, 0xAA], 2, .LE⟩ (by decide) rfl rfl

/-- C10: `writeBytes` and `readBytes` are unimplemented stubs — for every
state and all arguments they return leaving the entire buffer state
unchanged — and the extension branch of the `length` setter
(`n > current length`) likewise does nothing. -/
theorem C10_stub_frame (s : DynBuffer) (bytes : List Nat) (p l n : Nat) :
    writeBytes s bytes p l = s ∧ readBytes s bytes p l = s ∧
    (s.stream.length < n → setLength s n = s) := by
  refine ⟨rfl, rfl, fun h => ?_⟩
  unfold setLength
  rw [if_pos h]

/-- Witness for C10: the stubs on a fresh buffer, and a length extension
request on a 1-byte buffer. -/
theorem C10_stub_frame_witness :
    writeBytes DynBuffer.new [1, 2, 3] 0 3 = DynBuffer.new ∧
    readBytes DynBuffer.new [1, 2, 3] 0 3 = DynBuffer.new ∧
    setLength ⟨[4], 1, .BE⟩ 9 = ⟨[4], 1, .BE⟩ :=
  ⟨(C10_stub_frame DynBuffer.new [1, 2, 3] 0 3 9).1,
   (C10_stub_frame DynBuffer.new [1, 2, 3] 0 3 9).2.1,
   (C10_stub_frame ⟨[4], 1, .BE⟩ [1, 2, 3] 0 3 9).2.2 (by decide)⟩

end DynBuffer
